import Mathlib

/-!
Verification development for the hemp-data-populator harvesting pipeline.

The TypeScript sources are shallowly embedded: strings are Lean `String`s
(logically `List Char`), JavaScript string methods are translated to
executable functions over `String.data`, and each embedded definition keeps
the name of the source function it models.  The JavaScript string functions
(`trim`, `toLowerCase`, `replace`, `split`, `includes`) are modelled for the
ASCII-plus-bullet alphabet actually used by the repository; the SHA-256
digest in `DataProcessor.generateHash` is modelled by the exact pre-digest
key string (digest equality corresponds to key equality, assuming the digest
is collision-free on the inputs at hand).
-/

/-- JavaScript `\s` whitespace test, restricted to the ASCII whitespace
characters that occur in the repository's data. -/
def isWSChar (c : Char) : Bool :=
  c = ' ' || c = '\t' || c = '\n' || c = '\x0d' || c = '\x0b' || c = '\x0c'

/-- The control characters removed by `cleanText`'s regex
`[\u0000-\u001F\u007F-\u009F]`. -/
def isCtrlChar (c : Char) : Bool :=
  c.toNat ≤ 31 || (127 ≤ c.toNat && c.toNat ≤ 159)

/-- The leading bullet/dash class `[\s\-•–—]` stripped by `cleanText`. -/
def isLeadStrip (c : Char) : Bool :=
  isWSChar c || c = '-' || c = '•' || c = '–' || c = '—'

/-- ASCII digit test, JavaScript regex `\d`. -/
def isDigitChar (c : Char) : Bool := '0' ≤ c && c ≤ '9'

/-- JavaScript word character, regex `\w` = `[A-Za-z0-9_]`. -/
def isWordChar (c : Char) : Bool :=
  ('a' ≤ c && c ≤ 'z') || ('A' ≤ c && c ≤ 'Z') || isDigitChar c || c = '_'

/-- `String.prototype.toLowerCase`, on the ASCII letters (the only cased
characters appearing in the repository's strings). -/
def lowerChar (c : Char) : Char :=
  match c with
  | 'A' => 'a' | 'B' => 'b' | 'C' => 'c' | 'D' => 'd' | 'E' => 'e'
  | 'F' => 'f' | 'G' => 'g' | 'H' => 'h' | 'I' => 'i' | 'J' => 'j'
  | 'K' => 'k' | 'L' => 'l' | 'M' => 'm' | 'N' => 'n' | 'O' => 'o'
  | 'P' => 'p' | 'Q' => 'q' | 'R' => 'r' | 'S' => 's' | 'T' => 't'
  | 'U' => 'u' | 'V' => 'v' | 'W' => 'w' | 'X' => 'x' | 'Y' => 'y'
  | 'Z' => 'z'
  | c => c

/-- `String.prototype.toUpperCase`, on the ASCII letters. -/
def upperChar (c : Char) : Char :=
  match c with
  | 'a' => 'A' | 'b' => 'B' | 'c' => 'C' | 'd' => 'D' | 'e' => 'E'
  | 'f' => 'F' | 'g' => 'G' | 'h' => 'H' | 'i' => 'I' | 'j' => 'J'
  | 'k' => 'K' | 'l' => 'L' | 'm' => 'M' | 'n' => 'N' | 'o' => 'O'
  | 'p' => 'P' | 'q' => 'Q' | 'r' => 'R' | 's' => 'S' | 't' => 'T'
  | 'u' => 'U' | 'v' => 'V' | 'w' => 'W' | 'x' => 'X' | 'y' => 'Y'
  | 'z' => 'Z'
  | c => c

/-- Left half of JavaScript `trim`. -/
def ltrimL (l : List Char) : List Char := l.dropWhile isWSChar

/-- JavaScript `String.prototype.trim` on a character list. -/
def trimL (l : List Char) : List Char :=
  ((ltrimL l).reverse.dropWhile isWSChar).reverse

/-- Worker for `collapseWS`; the flag records whether the previous character
was whitespace (so a run contributes a single space). -/
def collapseAux (prevWS : Bool) : List Char → List Char
  | [] => []
  | c :: t =>
    if isWSChar c then
      if prevWS then collapseAux true t else ' ' :: collapseAux true t
    else c :: collapseAux false t

/-- `replace(/\s+/g, ' ')`: collapse every whitespace run to one space. -/
def collapseWS (l : List Char) : List Char := collapseAux false l

/-- `replace(/\s+/g, '')`: delete every whitespace character. -/
def removeWS (l : List Char) : List Char := l.filter (fun c => !isWSChar c)

/-- `replace(/[\u0000-\u001F\u007F-\u009F]/g, '')`. -/
def stripCtrl (l : List Char) : List Char := l.filter (fun c => !isCtrlChar c)

/-- `replace(/^[\s\-•–—]+/, '')`: drop the leading bullet/dash/space run. -/
def stripLead (l : List Char) : List Char := l.dropWhile isLeadStrip

/-- Lowercase a character list. -/
def lowerL (l : List Char) : List Char := l.map lowerChar

/-- `a.includes(b)` on character lists: `b` occurs as a contiguous infix. -/
def includesL : List Char → List Char → Bool
  | hay, needle =>
    match hay with
    | [] => needle.isEmpty
    | _ :: t => needle.isPrefixOf hay || includesL t needle

/-- JavaScript `trim` on strings. -/
def jsTrim (s : String) : String := ⟨trimL s.data⟩

/-- JavaScript `toLowerCase` on strings. -/
def jsToLower (s : String) : String := ⟨lowerL s.data⟩

/-- JavaScript `a.includes(b)` on strings. -/
def includes (s sub : String) : Bool := includesL s.data sub.data

/-- JavaScript regex `/^\d+$/.test(s)`. -/
def isNumericStr (s : String) : Bool :=
  !s.data.isEmpty && s.data.all isDigitChar

/-- The `HempProduct` record shape from `src/types`. -/
structure HempProduct where
  product_name : String
  plant_part : String
  industry : String
  description : String
  source_url : String
  benefits : Option (List String) := none
  technical_specs : Option (List (String × String)) := none
  sustainability_aspects : Option (List String) := none
  keywords : Option (List String) := none
deriving Repr, DecidableEq

/-- The allowed plant-part list from `DataProcessor.isValidProduct`. -/
def validPlantParts : List String :=
  ["seed", "seeds", "fiber", "fibre", "flower", "leaves", "leaf",
   "stem", "stalk", "hurds", "hurd", "roots", "root", "oil",
   "whole plant", "biomass", "sprouts", "extract"]

/-- `DataProcessor.isValidProduct`, translated rule for rule.  Conjunctive
rules in source order: numeric name, numeric plant part, minimum name
length, blank-description/short-name, hemp-relatedness, industry sentinel,
allowed plant part (bidirectional substring match), and the GitHub-gist
extra-scrutiny rule. -/
def isValidProduct (p : HempProduct) : Bool :=
  if isNumericStr p.product_name then false
  else if isNumericStr p.plant_part then false
  else if p.product_name = "" || p.product_name.length < 3 then false
  else if (p.description = "" || jsTrim p.description = "")
          && p.product_name.length < 5 then false
  else
    let lowerName := jsToLower p.product_name
    let lowerDesc := jsToLower p.description
    if !(includes lowerName "hemp") && !(includes lowerName "cannabis")
        && !(includes lowerName "cbd") && !(includes lowerDesc "hemp") then false
    else if p.industry = "" || p.industry = "Other" || isNumericStr p.industry then false
    else
      let plantPartLower := jsToLower p.plant_part
      if !(validPlantParts.any fun pt =>
            includes plantPartLower pt || includes pt plantPartLower) then false
      else if includes p.source_url "gist.github"
              && (p.description = "" || p.description.length < 20) then false
      else true

/-- JavaScript `split(sep)` for a one-character separator (used by
`normalizeText`'s `split(' ')`); consecutive separators yield empty fields. -/
def splitCharAux (sep : Char) (cur : List Char) : List Char → List (List Char)
  | [] => [cur]
  | c :: t => if c = sep then cur :: splitCharAux sep [] t
              else splitCharAux sep (cur ++ [c]) t

/-- JavaScript `split(sep)` with a one-character separator. -/
def splitChar (sep : Char) (l : List Char) : List (List Char) :=
  splitCharAux sep [] l

/-- Worker for `splitRuns`: JavaScript `split` against a regex `[class]+`;
the flag records whether we are inside a separator run. -/
def splitRunsAux (isSep : Char → Bool) : Bool → List Char → List Char → List (List Char)
  | _, cur, [] => [cur]
  | inSep, cur, c :: t =>
    if isSep c then
      if inSep then splitRunsAux isSep true cur t
      else cur :: splitRunsAux isSep true [] t
    else splitRunsAux isSep false (cur ++ [c]) t

/-- JavaScript `split(/[class]+/)`: split on maximal runs of separator
characters (leading/trailing runs yield empty boundary fields, as in JS). -/
def splitRuns (isSep : Char → Bool) (l : List Char) : List (List Char) :=
  splitRunsAux isSep false [] l

/-- Join word lists with single spaces (JavaScript `join(' ')`). -/
def joinSpace : List (List Char) → List Char
  | [] => []
  | [w] => w
  | w :: ws => w ++ ' ' :: joinSpace ws

/-- `word.charAt(0).toUpperCase() + word.slice(1)` from `normalizeText`. -/
def capWord : List Char → List Char
  | [] => []
  | c :: t => upperChar c :: t

/-- `DataProcessor.cleanText`: trim, collapse whitespace runs, strip control
characters, strip leading bullets/dashes, trim again. -/
def cleanText (s : String) : String :=
  ⟨trimL (stripLead (stripCtrl (collapseWS (trimL s.data))))⟩

/-- `DataProcessor.normalizeText`: cleaned text, lowercased, title-cased by
word. -/
def normalizeText (s : String) : String :=
  ⟨joinSpace (List.map capWord (splitChar ' ' (lowerL (cleanText s).data)))⟩

/-- `DataProcessor.generateHash`: the dedup key
`name|plant_part|industry`, lowercased with all whitespace removed.  The
SHA-256 digest applied to this key in the source is modelled by the key
itself (equal keys give equal digests; distinct keys give distinct digests
assuming no SHA-256 collision). -/
def generateHash (p : HempProduct) : String :=
  ⟨removeWS (lowerL (p.product_name.data ++ '|' :: p.plant_part.data
      ++ '|' :: p.industry.data))⟩

/-- Stop-word set of `DataProcessor.extractKeywords`. -/
def stopWords : List String :=
  ["the", "a", "an", "and", "or", "but", "in", "on", "at", "to", "for",
   "of", "with", "by", "from", "as", "is", "was", "are", "were", "been",
   "be", "have", "has", "had", "do", "does", "did", "will", "would",
   "could", "should", "may", "might", "must", "shall", "can", "cannot"]

/-- Worker modelling `filter((word, index, self) => self.indexOf(word) ===
index)` and `[...new Set(xs)]`: keep the first occurrence of each element. -/
def dedupFirstAux (seen : List String) : List String → List String
  | [] => []
  | x :: t => if seen.contains x then dedupFirstAux seen t
              else x :: dedupFirstAux (x :: seen) t

/-- First-occurrence deduplication. -/
def dedupFirst (l : List String) : List String := dedupFirstAux [] l

/-- `DataProcessor.extractKeywords`: tokenize name+description+plant
part+industry on non-word runs, drop short tokens and stop words, dedupe
keeping first occurrences, cap at 20. -/
def extractKeywords (p : HempProduct) : List String :=
  let text := p.product_name ++ " " ++ p.description ++ " "
      ++ p.plant_part ++ " " ++ p.industry
  let words := (splitRuns (fun c => !isWordChar c) (lowerL text.data)).map
      (fun w => (⟨w⟩ : String))
  let kws := words.filter (fun w => 3 < w.length && !stopWords.contains w)
  (dedupFirst kws).take 20

/-- Sustainability keyword list of `DataProcessor.extractSustainability`. -/
def sustainKeywords : List String :=
  ["sustainable", "renewable", "biodegradable", "eco-friendly",
   "carbon negative", "recyclable", "compostable", "organic",
   "low impact", "green", "environmental"]

/-- `DataProcessor.extractSustainability`: per sustainability keyword found
in the text, capture the first sentence (split on `[.!?]+`) containing it;
deduplicate. -/
def extractSustainability (text : String) : List String :=
  let lower := jsToLower text
  let sentences := (splitRuns (fun c => c = '.' || c = '!' || c = '?')
      text.data).map (fun l => (⟨l⟩ : String))
  let aspects := sustainKeywords.foldl (fun acc kw =>
    if includes lower kw then
      match sentences.find? (fun s => includes (jsToLower s) kw) with
      | some s => acc ++ [cleanText s]
      | none => acc
    else acc) []
  dedupFirst aspects

/-- Alternatives of the regex `(?:benefits?|advantages?)`, in the greedy
order the regex engine tries them. -/
def benefitAlts1 : List String := ["benefits", "benefit", "advantages", "advantage"]

/-- Alternatives of `(?:helps?|provides?|offers?)`. -/
def benefitAlts2 : List String := ["helps", "help", "provides", "provide", "offers", "offer"]

/-- Alternatives of `(?:reduces?|improves?|increases?)`. -/
def benefitAlts3 : List String := ["reduces", "reduce", "improves", "improve", "increases", "increase"]

/-- Case-insensitively match one of the alternatives as a prefix of `l`,
returning the remainder after the first (highest-priority) alternative that
matches. -/
def matchAltPrefix (alts : List String) (l : List Char) : Option (List Char) :=
  alts.findSome? fun a =>
    if a.data.isPrefixOf (lowerL (l.take a.data.length)) && a.data.length ≤ l.length
    then some (l.drop a.data.length) else none

/-- Consume the separator `\s*:?\s*` of the first benefit pattern. -/
def munchSep1 (l : List Char) : List Char :=
  match l.dropWhile isWSChar with
  | ':' :: t => t.dropWhile isWSChar
  | l1 => l1

/-- Consume the separator `\s+` of the other benefit patterns (at least one
whitespace character required). -/
def munchSep2 : List Char → Option (List Char)
  | [] => none
  | c :: t => if isWSChar c then some (t.dropWhile isWSChar) else none

/-- `matchAll` scanner for one benefit pattern: at each position try the
keyword alternatives, consume the separator, and capture `[^.;]+`
(non-empty); on a match continue after the capture, otherwise advance one
character.  `fuel` bounds the scan by the input length (each step consumes
at least one character, so the bound is never hit early). -/
def scanPatternAux (alts : List String) (needGap : Bool) :
    Nat → List Char → List String
  | 0, _ => []
  | _, [] => []
  | fuel + 1, l@(_ :: t) =>
    match matchAltPrefix alts l with
    | some rest =>
      match if needGap then munchSep2 rest else some (munchSep1 rest) with
      | some rest2 =>
        let cap := rest2.takeWhile (fun c => c ≠ '.' && c ≠ ';')
        if cap.isEmpty then scanPatternAux alts needGap fuel t
        else (⟨cap⟩ : String) :: scanPatternAux alts needGap fuel (rest2.drop cap.length)
      | none => scanPatternAux alts needGap fuel t
    | none => scanPatternAux alts needGap fuel t

/-- `DataProcessor.extractBenefits`: run the three benefit regex patterns
over the text, clean each captured clause, deduplicate. -/
def extractBenefits (text : String) : List String :=
  let l := text.data
  let caps := scanPatternAux benefitAlts1 false l.length l
      ++ scanPatternAux benefitAlts2 true l.length l
      ++ scanPatternAux benefitAlts3 true l.length l
  dedupFirst (caps.map cleanText)

/-- `DataProcessor.cleanProduct`: clean free-text fields, title-case the
categorical fields, recompute keywords. -/
def cleanProduct (p : HempProduct) : HempProduct :=
  { product_name := cleanText p.product_name
    plant_part := normalizeText p.plant_part
    industry := normalizeText p.industry
    description := cleanText p.description
    source_url := p.source_url
    benefits := p.benefits.map (List.map cleanText)
    technical_specs := p.technical_specs
    sustainability_aspects := p.sustainability_aspects.map (List.map cleanText)
    keywords := some (extractKeywords p) }

/-- `DataProcessor.enrichProduct`: fill empty benefits and sustainability
aspects from the description, always recompute keywords. -/
def enrichProduct (p : HempProduct) : HempProduct :=
  let benefits := match p.benefits with
    | none => extractBenefits p.description
    | some [] => extractBenefits p.description
    | some bs => bs
  let sust := match p.sustainability_aspects with
    | none => extractSustainability p.description
    | some [] => extractSustainability p.description
    | some ss => ss
  { p with benefits := some benefits
           sustainability_aspects := some sust
           keywords := some (extractKeywords p) }

/-- Per-call result of `DataProcessor.process` (`unique`, `duplicates`,
plus the `invalid` counter the method logs). -/
structure PRes where
  unique : List HempProduct
  duplicates : Nat
  invalid : Nat
deriving Repr, DecidableEq

/-- `DataProcessor.process`: validate, clean, hash, deduplicate against the
instance's `seenHashes` set (threaded explicitly as `seen`), and enrich.
Returns the per-call result together with the updated `seenHashes`. -/
def process (seen : List String) : List HempProduct → PRes × List String
  | [] => (⟨[], 0, 0⟩, seen)
  | p :: ps =>
    if isValidProduct p then
      let cleaned := cleanProduct p
      let h := generateHash cleaned
      if h ∈ seen then
        let r := process seen ps
        (⟨r.1.unique, r.1.duplicates + 1, r.1.invalid⟩, r.2)
      else
        let r := process (h :: seen) ps
        (⟨enrichProduct cleaned :: r.1.unique, r.1.duplicates, r.1.invalid⟩, r.2)
    else
      let r := process seen ps
      (⟨r.1.unique, r.1.duplicates, r.1.invalid + 1⟩, r.2)

/-- Repeated calls to `process` on one `DataProcessor` instance: the
`seenHashes` state flows from call to call (the instance is created once in
`DataHarvester`'s constructor and reused for every run). -/
def processLifetime (seen : List String) : List (List HempProduct) → List PRes × List String
  | [] => ([], seen)
  | b :: bs =>
    let r := process seen b
    let rest := processLifetime r.2 bs
    (r.1 :: rest.1, rest.2)

/-- All content hashes of the records emitted across a sequence of
`process` calls. -/
def emittedHashes (rs : List PRes) : List String :=
  (rs.map (fun r => r.unique.map generateHash)).flatten

/-- Two `runOnce` invocations of one `DataHarvester` (as `runSchedule`
performs them): the constructor creates a single `DataProcessor`, so the
second run starts from the dedup state the first run left behind. -/
def twoScheduledRuns (b1 b2 : List HempProduct) : PRes × PRes :=
  let r1 := process [] b1
  (r1.1, (process r1.2 b2).1)

/-- The quoted-field CSV line parser `parseCSVLine` from `Scraper.scrapeCSV`:
state machine over the characters with the accumulated current field, the
fields emitted so far, and the in-quotes flag.  A quote while in quotes
followed by another quote is an escaped literal quote; otherwise a quote
toggles the flag; a comma outside quotes ends the field; every emitted field
is trimmed. -/
def parseCSVLineAux (current : List Char) (acc : List String) (inQuotes : Bool) :
    Nat → List Char → List String
  | _, [] => acc ++ [(⟨trimL current⟩ : String)]
  | 0, _ => acc ++ [(⟨trimL current⟩ : String)]
  | fuel + 1, '"' :: rest =>
    if inQuotes then
      match rest with
      | '"' :: rest2 => parseCSVLineAux (current ++ ['"']) acc true fuel rest2
      | other => parseCSVLineAux current acc false fuel other
    else parseCSVLineAux current acc true fuel rest
  | fuel + 1, ',' :: rest =>
    if inQuotes then parseCSVLineAux (current ++ [',']) acc true fuel rest
    else parseCSVLineAux [] (acc ++ [(⟨trimL current⟩ : String)]) false fuel rest
  | fuel + 1, c :: rest => parseCSVLineAux (current ++ [c]) acc inQuotes fuel rest

/-- `parseCSVLine` on a whole line.  The fuel is the line length: every
step consumes at least one character, so the zero-fuel fallback (which only
exists to make the recursion structural) is never reached. -/
def parseCSVLine (line : String) : List String :=
  parseCSVLineAux [] [] false line.data.length line.data

/-- `Scraper.extractPlantPart`: ordered first-match-wins keyword scan. -/
def extractPlantPart (text : String) : String :=
  let lower := jsToLower text
  if includes lower "seed" then "seed"
  else if includes lower "fiber" || includes lower "fibre" then "fiber"
  else if includes lower "flower" || includes lower "bud" then "flower"
  else if includes lower "leaf" || includes lower "leaves" then "leaf"
  else if includes lower "root" then "root"
  else if includes lower "stem" || includes lower "stalk" then "stem"
  else if includes lower "oil" then "seed"
  else if includes lower "whole plant" then "whole plant"
  else "unspecified"

/-- `Scraper.extractIndustry`: ordered first-match-wins keyword scan. -/
def extractIndustry (text : String) : String :=
  let lower := jsToLower text
  if includes lower "food" || includes lower "nutrition" then "Food & Nutrition"
  else if includes lower "textile" || includes lower "fabric" || includes lower "clothing" then "Textiles"
  else if includes lower "construction" || includes lower "building" then "Construction"
  else if includes lower "automotive" || includes lower "car" then "Automotive"
  else if includes lower "cosmetic" || includes lower "beauty" then "Cosmetics"
  else if includes lower "pharmaceutical" || includes lower "medicine" then "Pharmaceutical"
  else if includes lower "paper" || includes lower "pulp" then "Paper"
  else if includes lower "plastic" || includes lower "bioplastic" then "Bioplastics"
  else if includes lower "energy" || includes lower "fuel" then "Energy"
  else "Other"

/-- A duck-typed JSON object as `Scraper.parseJSONItem` inspects it: each
alias field is present (`some`) or absent (`none`). -/
structure JsonItem where
  product : Option String := none
  name : Option String := none
  title : Option String := none
  item : Option String := none
  description : Option String := none
  details : Option String := none
  use : Option String := none
  plant_part : Option String := none
  part : Option String := none
  industry : Option String := none
  sector : Option String := none
  benefits : Option (List String) := none
  advantages : Option (List String) := none
  specifications : Option (List (String × String)) := none
  specs : Option (List (String × String)) := none
  keywords : Option (List String) := none
  tags : Option (List String) := none
deriving Repr

/-- JavaScript `a || b` for string-valued fields: an absent field and the
empty string are falsy. -/
def jsOr (a : Option String) (b : Option String) : Option String :=
  match a with
  | some s => if s = "" then b else some s
  | none => b

/-- JavaScript `a || b` where `a` is an array-valued field: only an absent
field is falsy (an empty array is truthy). -/
def jsOrArr {α : Type} (a : Option α) (b : Option α) : Option α :=
  match a with
  | some x => some x
  | none => b

/-- `Scraper.parseJSONItem`: resolve alias fields, drop items without a
resolvable name, fall back to the heuristic detectors for the categorical
fields. -/
def parseJSONItem (it : JsonItem) (sourceUrl : String) : Option HempProduct :=
  match jsOr it.product (jsOr it.name (jsOr it.title it.item)) with
  | none => none
  | some name =>
    let description := (jsOr it.description (jsOr it.details it.use)).getD ""
    some
      { product_name := name
        description := description
        plant_part := (jsOr it.plant_part it.part).getD
            (extractPlantPart (name ++ " " ++ description))
        industry := (jsOr it.industry it.sector).getD
            (extractIndustry (name ++ " " ++ description))
        source_url := sourceUrl
        benefits := jsOrArr it.benefits it.advantages
        technical_specs := jsOrArr it.specifications it.specs
        keywords := jsOrArr it.keywords it.tags }

/-- The products a JSON source consisting of a single top-level array with
one item yields in `Scraper.scrapeJSON` (null parses are dropped). -/
def scrapeJSONSingleton (it : JsonItem) (sourceUrl : String) : List HempProduct :=
  match parseJSONItem it sourceUrl with
  | some p => [p]
  | none => []

/-- Source formats of a `DataSource`. -/
inductive SType where
  | html
  | csv
  | json
  | pdf
deriving Repr, DecidableEq

/-- `DataSource` from `src/types` (scores are exact rationals standing for
the JavaScript numbers). -/
structure DataSource where
  url : String
  type : SType
  score : ℚ
  license : Option String := none
deriving Repr, DecidableEq

/-- `config.discovery.scoringWeights`; the Lean keyword clash forces the
`structure` key to be named `structureW`. -/
structure ScoringWeights where
  datasetSize : ℚ
  license : ℚ
  structureW : ℚ
  freshness : ℚ
deriving Repr

/-- The default weights 0.3 / 0.2 / 0.3 / 0.2 from `src/config`. -/
def scoringWeights : ScoringWeights :=
  { datasetSize := 3/10, license := 1/5, structureW := 3/10, freshness := 1/5 }

/-- `config.discovery.minScoreThreshold` (0.6). -/
def minScoreThreshold : ℚ := 3/5

/-- Known-open-license substrings of `Discovery.isOpenLicense`. -/
def openLicenses : List String :=
  ["mit", "apache", "gpl", "bsd", "cc-by", "cc0", "public domain",
   "unlicense", "creative commons", "open data", "open government"]

/-- `Discovery.isOpenLicense`. -/
def isOpenLicense (license : String) : Bool :=
  openLicenses.any fun o => includes (jsToLower license) o

/-- `Discovery.scoreSources`, per source: weighted structure and license
terms, the `.gov`/`.org` bonus (+0.1), the `usda`/`europa` bonus (+0.15),
and the constant datasetSize and freshness placeholder terms, accumulated
in source order.  The `license && isOpenLicense(license)` guard makes the
JavaScript-falsy empty string take the unknown-license branch. -/
def scoreSource (s : DataSource) : DataSource :=
  let w := scoringWeights
  let score1 : ℚ :=
    match s.type with
    | SType.csv => w.structureW * 1
    | SType.json => w.structureW * 1
    | SType.html => w.structureW * (1/2)
    | SType.pdf => w.structureW * (3/10)
  let score2 := score1 +
    (match s.license with
     | some l => if l ≠ "" && isOpenLicense l then w.license * 1 else w.license * (1/2)
     | none => w.license * (1/2))
  let score3 := score2 + (if includes s.url ".gov" || includes s.url ".org" then 1/10 else 0)
  let score4 := score3 + (if includes s.url "usda" || includes s.url "europa" then 3/20 else 0)
  let score5 := score4 + w.datasetSize * (1/2)
  let score6 := score5 + w.freshness * (1/2)
  { s with score := score6 }

/-- `Discovery.scoreSources` over a candidate list. -/
def scoreSources (sources : List DataSource) : List DataSource :=
  sources.map scoreSource

/-- The descending-score order used by `sort((a, b) => b.score - a.score)`. -/
def scoreGE (a b : DataSource) : Prop := b.score ≤ a.score

instance : DecidableRel scoreGE :=
  fun a b => inferInstanceAs (Decidable (b.score ≤ a.score))

instance : IsTotal DataSource scoreGE :=
  ⟨fun a b => le_total b.score a.score⟩

instance : IsTrans DataSource scoreGE :=
  ⟨fun _ _ _ h1 h2 => le_trans h2 h1⟩

/-- `Discovery.findDataSources`, parametrized by the candidate sources the
discovery strategies produced: score, filter by the threshold, sort
descending, keep the top 10. -/
def findDataSources (allSources : List DataSource) : List DataSource :=
  let scored := scoreSources allSources
  let filtered := scored.filter fun s => decide (minScoreThreshold ≤ s.score)
  (List.insertionSort scoreGE filtered).take 10

/-- Run status written by `DataHarvester.runOnce` through `updateRun`. -/
inductive RunStatus where
  | completed
  | failed
deriving Repr, DecidableEq

/-- `HarvestRunResult` from `src/types` (the wall-clock `duration_ms` field
is not modelled). -/
structure HarvestRunResult where
  products_found : Nat
  products_saved : Nat
  companies_saved : Nat
  duplicates_skipped : Nat
  errors : List String
deriving Repr, DecidableEq

/-- What processing one source contributes in `runOnce`'s loop: the counts
on success, or the caught per-source error message. -/
inductive SourceOutcome where
  | ok (found saved companies duplicates : Nat)
  | err (msg : String)
deriving Repr

/-- One iteration of `runOnce`'s source loop. -/
def stepSource (acc : HarvestRunResult) : SourceOutcome → HarvestRunResult
  | SourceOutcome.ok f s c d =>
    { acc with products_found := acc.products_found + f
               products_saved := acc.products_saved + s
               companies_saved := acc.companies_saved + c
               duplicates_skipped := acc.duplicates_skipped + d }
  | SourceOutcome.err m => { acc with errors := acc.errors ++ [m] }

/-- `DataHarvester.runOnce`, parametrized by the per-source outcomes of the
discovered sources (scraping and storage are external collaborators): fold
the loop from all-zero counts; per-source errors are caught, so the run
always reaches the final `updateRun(..., status: completed)`. -/
def runOnce (sources : List SourceOutcome) : RunStatus × HarvestRunResult :=
  (RunStatus.completed, sources.foldl stepSource ⟨0, 0, 0, 0, []⟩)

/-- Rejection case of C3: purely numeric name. -/
def rNumName : HempProduct :=
  { product_name := "12345", plant_part := "seed", industry := "Food & Nutrition",
    description := "a hemp product", source_url := "" }

/-- Rejection case of C3: name Hemp with numeric plant part. -/
def rNumPart : HempProduct :=
  { product_name := "Hemp", plant_part := "42", industry := "Food & Nutrition",
    description := "a hemp product", source_url := "" }

/-- Rejection case of C3: industry is the sentinel Other. -/
def rOther : HempProduct :=
  { product_name := "Hemp Seed Oil", plant_part := "seed", industry := "Other",
    description := "a hemp product", source_url := "" }

/-- Rejection case of C3: plant part banana is not in the allowed list. -/
def rBanana : HempProduct :=
  { product_name := "Hemp Seed Oil", plant_part := "banana", industry := "Food & Nutrition",
    description := "a hemp product", source_url := "" }

/-- Rejection case of C3: two-character name. -/
def rShort : HempProduct :=
  { product_name := "AB", plant_part := "seed", industry := "Food & Nutrition",
    description := "a hemp product", source_url := "" }

/-- Acceptance case of C3. -/
def rAccept : HempProduct :=
  { product_name := "Hemp Seed Oil", plant_part := "seed", industry := "Food & Nutrition",
    description := "Used in cooking and cosmetics", source_url := "" }

/-- C10: record whose raw name passes the minimum-length rule (≥ 3) only
because of the whitespace padding; the cleaned name is two characters. -/
def rPadName : HempProduct :=
  { product_name := " ab ", plant_part := "fiber", industry := "Textiles",
    description := "woven from hemp fiber", source_url := "" }

/-- C10: record with a blank description whose raw name passes the ≥ 5 rule
only because of the leading dash decoration; the cleaned name has three
characters. -/
def rDashName : HempProduct :=
  { product_name := "- cbd", plant_part := "fiber", industry := "Textiles",
    description := "", source_url := "" }

/-- C2 counterexample, first record: the pipe separator of the hash key
occurs inside the name. -/
def pPipe : HempProduct :=
  { product_name := "Hemp|Rope", plant_part := "Seed", industry := "Textiles",
    description := "hemp rope", source_url := "" }

/-- C2 counterexample, second record: a meaningfully different name and
plant part that produce the same hash key. -/
def qPipe : HempProduct :=
  { product_name := "Hemp", plant_part := "Rope|Seed", industry := "Textiles",
    description := "hemp rope", source_url := "" }

/-- C2 witness, first record. -/
def pCase : HempProduct :=
  { product_name := "  Hemp Rope ", plant_part := "SEED", industry := "Textiles",
    description := "a hemp rope", source_url := "https://a.example" }

/-- C2 witness, second record: same three fields up to edge whitespace and
case, all other fields different. -/
def qCase : HempProduct :=
  { product_name := "hemp rope", plant_part := "seed ", industry := " textiles",
    description := "another description", source_url := "https://b.example" }

/-- C4: a valid product fed to two scheduled runs of the same harvester. -/
def pC4 : HempProduct :=
  { product_name := "Hemp Seed Oil", plant_part := "seed", industry := "Food & Nutrition",
    description := "Used in cooking and cosmetics", source_url := "" }

/-- C8: the single JSON array item of the end-to-end test. -/
def itemC8 : JsonItem :=
  { name := some "Hemp Rope",
    description := some "Sustainable hemp fiber rope, biodegradable",
    plant_part := some "fiber",
    industry := some "Textiles" }

/-- C8: the JSON source URL. -/
def urlC8 : String := "https://example.com/hemp.json"

/-- C6 witness: a structured candidate with an open license. -/
def srcCsvC6 : DataSource :=
  { url := "https://raw.example.com/hemp.csv", type := SType.csv, score := 0,
    license := some "MIT" }

/-- C6 witness: an HTML candidate with no license on an `.org` host. -/
def srcHtmlC6 : DataSource :=
  { url := "https://example.org/hemp-page", type := SType.html, score := 0 }

/-- C6 witness: the discovered candidate list. -/
def sourcesC6 : List DataSource := [srcHtmlC6, srcCsvC6]

/-- C3: the validator rejects the five listed records (numeric name, numeric
plant part, industry Other, unknown plant part banana, two-character name)
and accepts the Hemp Seed Oil record. -/
theorem C3_validator_cases :
    isValidProduct rNumName = false
    ∧ isValidProduct rNumPart = false
    ∧ isValidProduct rOther = false
    ∧ isValidProduct rBanana = false
    ∧ isValidProduct rShort = false
    ∧ isValidProduct rAccept = true := by
  refine ⟨?_, ?_, ?_, ?_, ?_, ?_⟩ <;> decide

/-- C7: the CSV line parser splits the example line into exactly three
fields, keeping the comma inside the quoted field; and on every line a
doubled quote inside a quoted field is decoded as one literal quote
character (the parser appends one `"` to the current field and continues
in-quotes after the pair). -/
theorem C7_csv_quoted_fields :
    parseCSVLine "Hemp Seed, \"High in Omega-3, Omega-6\",seed"
      = ["Hemp Seed", "High in Omega-3, Omega-6", "seed"]
    ∧ ∀ (fuel : Nat) (cur : List Char) (acc : List String) (rest : List Char),
        parseCSVLineAux cur acc true (fuel + 1) ('"' :: '"' :: rest)
          = parseCSVLineAux (cur ++ ['"']) acc true fuel rest :=
  ⟨by decide, fun _ _ _ _ => rfl⟩

/-- C9: a harvest run whose discovery phase yields zero viable sources still
completes: status `completed`, all-zero counts, empty error list. -/
theorem C9_zero_sources_completes :
    runOnce [] = (RunStatus.completed, ⟨0, 0, 0, 0, []⟩) := rfl

/-- C10: validation runs on the raw field values before cleaning.
`rPadName`'s raw name meets the ≥ 3 rule only through whitespace padding,
is accepted and emitted with a cleaned two-character name; `rDashName`'s
raw name meets the ≥ 5 blank-description rule only through its leading dash
and is accepted although its cleaned name has three characters. -/
theorem C10_validation_on_raw_fields :
    isValidProduct rPadName = true
    ∧ 3 ≤ rPadName.product_name.length
    ∧ (cleanProduct rPadName).product_name.length < 3
    ∧ (process [] [rPadName]).1.unique.map (fun e => e.product_name) = ["ab"]
    ∧ isValidProduct rDashName = true
    ∧ jsTrim rDashName.description = ""
    ∧ 5 ≤ rDashName.product_name.length
    ∧ (cleanProduct rDashName).product_name.length < 5 := by
  refine ⟨?_, ?_, ?_, ?_, ?_, ?_, ?_, ?_⟩ <;> decide

/-- C8: feeding the single-item JSON array through parsing, validation and
deduplication with empty initial dedup state yields exactly one canonical
record; its sustainability aspects are exactly the sentence containing
`biodegradable`, and its keyword list is the stated non-empty list, which
contains no stop words. -/
theorem C8_json_end_to_end :
    (process [] (scrapeJSONSingleton itemC8 urlC8)).1.unique.length = 1
    ∧ (process [] (scrapeJSONSingleton itemC8 urlC8)).1.unique.map
        (fun e => e.sustainability_aspects)
        = [some ["Sustainable hemp fiber rope, biodegradable"]]
    ∧ includes "Sustainable hemp fiber rope, biodegradable" "biodegradable" = true
    ∧ (process [] (scrapeJSONSingleton itemC8 urlC8)).1.unique.map (fun e => e.keywords)
        = [some ["hemp", "rope", "sustainable", "fiber", "biodegradable", "textiles"]]
    ∧ (["hemp", "rope", "sustainable", "fiber", "biodegradable", "textiles"].all
        fun k => !stopWords.contains k) = true
    ∧ ["hemp", "rope", "sustainable", "fiber", "biodegradable", "textiles"] ≠ [] := by
  refine ⟨?_, ?_, ?_, ?_, ?_, ?_⟩ <;> decide

/-- C4 counterexample: `pC4` is emitted as unique by the first scheduled run
and is then counted as a duplicate (and not emitted) by the second run of
the same harvester, solely because the `DataProcessor` instance and its
`seenHashes` set are created once in the harvester constructor and reused;
the claimed cross-run isolation fails. -/
theorem C4_counterexample :
    (twoScheduledRuns [pC4] [pC4]).1.unique.map (fun e => e.product_name)
      = ["Hemp Seed Oil"]
    ∧ (twoScheduledRuns [pC4] [pC4]).1.duplicates = 0
    ∧ (twoScheduledRuns [pC4] [pC4]).2.unique = []
    ∧ (twoScheduledRuns [pC4] [pC4]).2.duplicates = 1 := by
  refine ⟨?_, ?_, ?_, ?_⟩ <;> decide

/-- C4 amended: the dedup hash set persists for the lifetime of the
`DataProcessor` instance, which the harvester creates once and reuses
across runs; hence every valid record emitted as unique in the first
scheduled run is treated as a duplicate in the second. -/
theorem C4_amended_dedup_state_persists (p : HempProduct)
    (hv : isValidProduct p = true) :
    (twoScheduledRuns [p] [p]).1.duplicates = 0
    ∧ (twoScheduledRuns [p] [p]).1.unique.length = 1
    ∧ (twoScheduledRuns [p] [p]).2.duplicates = 1
    ∧ (twoScheduledRuns [p] [p]).2.unique = [] := by
  simp [twoScheduledRuns, process, hv]

/-- Witness for the amended C4 theorem at the concrete product `pC4`. -/
theorem C4_amended_dedup_state_persists_witness :
    isValidProduct pC4 = true
    ∧ ((twoScheduledRuns [pC4] [pC4]).1.duplicates = 0
      ∧ (twoScheduledRuns [pC4] [pC4]).1.unique.length = 1
      ∧ (twoScheduledRuns [pC4] [pC4]).2.duplicates = 1
      ∧ (twoScheduledRuns [pC4] [pC4]).2.unique = []) :=
  ⟨by decide, C4_amended_dedup_state_persists pC4 (by decide)⟩

/-- C2 counterexample: the hash key joins the three fields with `|` and
never escapes a `|` occurring inside a field, so `pPipe` and `qPipe`, whose
names (and plant parts) differ meaningfully — far beyond whitespace and
letter case — still collide on the content hash. -/
theorem C2_counterexample :
    generateHash (cleanProduct pPipe) = generateHash (cleanProduct qPipe)
    ∧ jsToLower (jsTrim pPipe.product_name) ≠ jsToLower (jsTrim qPipe.product_name)
    ∧ jsToLower (jsTrim pPipe.plant_part) ≠ jsToLower (jsTrim qPipe.plant_part) := by
  refine ⟨?_, ?_, ?_⟩ <;> decide

/-- Enrichment never changes the three hash fields, so the emitted record
hashes to the same key as the cleaned record it came from. -/
theorem generateHash_enrichProduct (p : HempProduct) :
    generateHash (enrichProduct p) = generateHash p := rfl

/-- Invariants of one `process` call, for any starting dedup state: the
emitted hashes are pairwise distinct, fresh with respect to the starting
state, recorded in the final state; the state only grows; and duplicates
plus uniques count exactly the valid inputs. -/
theorem process_spec (ps : List HempProduct) : ∀ seen : List String,
    ((process seen ps).1.unique.map generateHash).Nodup
    ∧ (∀ h ∈ (process seen ps).1.unique.map generateHash, h ∉ seen)
    ∧ (∀ h ∈ (process seen ps).1.unique.map generateHash, h ∈ (process seen ps).2)
    ∧ (∀ x ∈ seen, x ∈ (process seen ps).2)
    ∧ (process seen ps).1.duplicates + (process seen ps).1.unique.length
        = (ps.filter isValidProduct).length := by
  induction ps with
  | nil =>
    intro seen
    simp [process]
  | cons p ps ih =>
    intro seen
    cases hv : isValidProduct p with
    | false =>
      have H := ih seen
      simp only [process, hv, Bool.false_eq_true, if_false, List.filter_cons]
      simpa using H
    | true =>
      by_cases hmem : generateHash (cleanProduct p) ∈ seen
      · have H := ih seen
        simp only [process, hv, if_true, hmem, List.filter_cons]
        simp only [List.length_cons]
        refine ⟨H.1, H.2.1, H.2.2.1, H.2.2.2.1, ?_⟩
        have := H.2.2.2.2
        omega
      · have H := ih (generateHash (cleanProduct p) :: seen)
        simp only [process, hv, if_true, hmem, if_false, List.filter_cons]
        simp only [List.map_cons, generateHash_enrichProduct, List.length_cons]
        refine ⟨?_, ?_, ?_, ?_, ?_⟩
        · exact List.nodup_cons.mpr
            ⟨fun hc => (H.2.1 _ hc) (List.mem_cons_self _ _), H.1⟩
        · intro h hh
          rcases List.mem_cons.mp hh with rfl | hh
          · exact hmem
          · exact fun hs => (H.2.1 _ hh) (List.mem_cons_of_mem _ hs)
        · intro h hh
          rcases List.mem_cons.mp hh with rfl | hh
          · exact H.2.2.2.1 _ (List.mem_cons_self _ _)
          · exact H.2.2.1 _ hh
        · intro x hx
          exact H.2.2.2.1 _ (List.mem_cons_of_mem _ hx)
        · have := H.2.2.2.2
          omega

/-- Invariants over a whole instance lifetime (a sequence of `process`
calls threading the dedup state): all emitted hashes are pairwise
distinct and fresh with respect to the starting state, the final state
records them, and each call's duplicate + unique counts match its valid
inputs. -/
theorem processLifetime_spec (bs : List (List HempProduct)) : ∀ seen : List String,
    (emittedHashes (processLifetime seen bs).1).Nodup
    ∧ (∀ h ∈ emittedHashes (processLifetime seen bs).1, h ∉ seen)
    ∧ (∀ h ∈ emittedHashes (processLifetime seen bs).1, h ∈ (processLifetime seen bs).2)
    ∧ (∀ x ∈ seen, x ∈ (processLifetime seen bs).2)
    ∧ (processLifetime seen bs).1.map (fun r => r.duplicates + r.unique.length)
        = bs.map (fun b => (b.filter isValidProduct).length) := by
  induction bs with
  | nil =>
    intro seen
    simp [processLifetime, emittedHashes]
  | cons b bs ih =>
    intro seen
    have Hb := process_spec b seen
    have Hr := ih (process seen b).2
    simp only [processLifetime, emittedHashes, List.map_cons, List.flatten_cons]
    refine ⟨?_, ?_, ?_, ?_, ?_⟩
    · refine List.nodup_append.mpr ⟨Hb.1, Hr.1, ?_⟩
      intro h hh hh2
      exact (Hr.2.1 h hh2) (Hb.2.2.1 h hh)
    · intro h hh
      rcases List.mem_append.mp hh with hh | hh
      · exact Hb.2.1 h hh
      · exact fun hs => (Hr.2.1 h hh) (Hb.2.2.2.1 _ hs)
    · intro h hh
      rcases List.mem_append.mp hh with hh | hh
      · exact Hr.2.2.2.1 _ (Hb.2.2.1 h hh)
      · exact Hr.2.2.1 h hh
    · intro x hx
      exact Hr.2.2.2.1 _ (Hb.2.2.2.1 x hx)
    · simpa [Hb.2.2.2.2] using Hr.2.2.2.2

/-- C1: over the lifetime of one `DataProcessor` instance (any sequence of
`process` calls starting from the empty `seenHashes` set), no two emitted
records share a content hash, and each call's duplicate count plus unique
count equals the number of its inputs that pass validation. -/
theorem C1_lifetime_dedup (batches : List (List HempProduct)) :
    (emittedHashes (processLifetime [] batches).1).Nodup
    ∧ (processLifetime [] batches).1.map (fun r => r.duplicates + r.unique.length)
      = batches.map (fun b => (b.filter isValidProduct).length) :=
  ⟨(processLifetime_spec batches []).1, (processLifetime_spec batches []).2.2.2.2⟩

/-- C5: under the default configuration weights (structure 0.3, license
0.2, datasetSize 0.3, freshness 0.2) every score `Discovery.scoreSources`
assigns lies in [0, 1], even with both URL bonuses (+0.1 and +0.15): the
maximum reachable sum is 0.3 + 0.2 + 0.1 + 0.15 + 0.15 + 0.1 = 1. -/
theorem C5_score_in_unit_interval (s : DataSource) :
    0 ≤ (scoreSource s).score ∧ (scoreSource s).score ≤ 1 := by
  rcases s with ⟨url, ty, sc, lic⟩
  cases ty <;> rcases lic with _ | l <;>
    simp only [scoreSource, scoringWeights] <;>
    split_ifs <;> constructor <;> norm_num

/-- C6: for every discovered candidate list, `Discovery.findDataSources`
returns at most 10 sources, each with post-bonus score at least the
configured threshold (0.6), in descending score order; and because the
descending sort happens before the truncation, every filtered source left
out scores no higher than any returned one. -/
theorem C6_findDataSources_spec (l : List DataSource) :
    (findDataSources l).length ≤ 10
    ∧ (∀ s ∈ findDataSources l, minScoreThreshold ≤ s.score)
    ∧ List.Sorted scoreGE (findDataSources l)
    ∧ (∀ s ∈ findDataSources l,
        ∀ t ∈ (scoreSources l).filter (fun s => decide (minScoreThreshold ≤ s.score)),
          t ∉ findDataSources l → t.score ≤ s.score) := by
  have hEq : findDataSources l
      = (List.insertionSort scoreGE ((scoreSources l).filter
          (fun s => decide (minScoreThreshold ≤ s.score)))).take 10 := rfl
  have hsorted := List.sorted_insertionSort scoreGE
    ((scoreSources l).filter (fun s => decide (minScoreThreshold ≤ s.score)))
  have hperm := List.perm_insertionSort scoreGE
    ((scoreSources l).filter (fun s => decide (minScoreThreshold ≤ s.score)))
  refine ⟨?_, ?_, ?_, ?_⟩
  · rw [hEq]
    exact List.length_take_le 10 _
  · intro s hs
    rw [hEq] at hs
    have hsF := hperm.subset (List.mem_of_mem_take hs)
    exact of_decide_eq_true (List.mem_filter.mp hsF).2
  · rw [hEq]
    exact List.Pairwise.sublist (List.take_sublist _ _) hsorted
  · intro s hs t ht htn
    rw [hEq] at hs htn
    have htS : t ∈ List.insertionSort scoreGE ((scoreSources l).filter
        (fun s => decide (minScoreThreshold ≤ s.score))) := hperm.mem_iff.mpr ht
    have hpw := hsorted
    rw [← List.take_append_drop 10 (List.insertionSort scoreGE
        ((scoreSources l).filter (fun s => decide (minScoreThreshold ≤ s.score))))] at hpw
    have h3 := (List.pairwise_append.mp hpw).2.2
    have hsplit : t ∈ List.take 10 (List.insertionSort scoreGE ((scoreSources l).filter
          (fun s => decide (minScoreThreshold ≤ s.score))))
        ++ List.drop 10 (List.insertionSort scoreGE ((scoreSources l).filter
          (fun s => decide (minScoreThreshold ≤ s.score)))) := by
      rw [List.take_append_drop]
      exact htS
    have htd : t ∈ List.drop 10 (List.insertionSort scoreGE ((scoreSources l).filter
        (fun s => decide (minScoreThreshold ≤ s.score)))) := by
      rcases List.mem_append.mp hsplit with h | h
      · exact absurd h htn
      · exact h
    exact h3 s hs t htd

/-- Witness for C6 on a concrete two-candidate list: the scored MIT CSV
source (score 0.75) is returned with a score above the threshold, and the
result respects the length bound. -/
theorem C6_findDataSources_spec_witness :
    (findDataSources sourcesC6).length ≤ 10
    ∧ minScoreThreshold ≤ (scoreSource srcCsvC6).score := by
  have hCsv : (scoreSource srcCsvC6).score = 3/4 := by
    have hl : (decide (("MIT" : String) ≠ "") && isOpenLicense "MIT") = true := by decide
    have hu1 : (includes "https://raw.example.com/hemp.csv" ".gov"
        || includes "https://raw.example.com/hemp.csv" ".org") = false := by decide
    have hu2 : (includes "https://raw.example.com/hemp.csv" "usda"
        || includes "https://raw.example.com/hemp.csv" "europa") = false := by decide
    simp only [scoreSource, srcCsvC6, scoringWeights, hl, hu1, hu2, if_true,
      Bool.false_eq_true, if_false]
    norm_num
  have hHtml : (scoreSource srcHtmlC6).score = 3/5 := by
    have hu1 : (includes "https://example.org/hemp-page" ".gov"
        || includes "https://example.org/hemp-page" ".org") = true := by decide
    have hu2 : (includes "https://example.org/hemp-page" "usda"
        || includes "https://example.org/hemp-page" "europa") = false := by decide
    simp only [scoreSource, srcHtmlC6, scoringWeights, hu1, hu2, if_true,
      Bool.false_eq_true, if_false]
    norm_num
  have h := C6_findDataSources_spec sourcesC6
  refine ⟨h.1, h.2.1 (scoreSource srcCsvC6) ?_⟩
  have hfil : (scoreSources sourcesC6).filter (fun s => decide (minScoreThreshold ≤ s.score))
      = [scoreSource srcHtmlC6, scoreSource srcCsvC6] := by
    have c1 : decide (minScoreThreshold ≤ (scoreSource srcHtmlC6).score) = true := by
      rw [decide_eq_true_eq, hHtml, minScoreThreshold]
    have c2 : decide (minScoreThreshold ≤ (scoreSource srcCsvC6).score) = true := by
      rw [decide_eq_true_eq, hCsv, minScoreThreshold]
      norm_num
    simp [scoreSources, sourcesC6, List.filter_cons, c1, c2]
  have hord : ¬ scoreGE (scoreSource srcHtmlC6) (scoreSource srcCsvC6) := by
    simp only [scoreGE, hCsv, hHtml]
    norm_num
  have hEq : findDataSources sourcesC6
      = (List.insertionSort scoreGE ((scoreSources sourcesC6).filter
          (fun s => decide (minScoreThreshold ≤ s.score)))).take 10 := rfl
  rw [hEq, hfil]
  simp [List.insertionSort, List.orderedInsert, hord]

/-- Lowercasing does not change whether a character is whitespace. -/
theorem lowerChar_isWS (c : Char) : isWSChar (lowerChar c) = isWSChar c := by
  unfold lowerChar
  split <;> rfl

/-- Lowercasing does not change whether a character is a control
character. -/
theorem lowerChar_isCtrl (c : Char) : isCtrlChar (lowerChar c) = isCtrlChar c := by
  unfold lowerChar
  split <;> rfl

/-- Lowercasing does not change membership in the leading bullet/dash
class. -/
theorem lowerChar_isLead (c : Char) : isLeadStrip (lowerChar c) = isLeadStrip c := by
  unfold lowerChar
  split <;> rfl

/-- Lowercasing after uppercasing equals lowercasing directly. -/
theorem lowerChar_upperChar (c : Char) : lowerChar (upperChar c) = lowerChar c := by
  unfold upperChar
  split <;> rfl

/-- A character map that preserves a predicate commutes with `dropWhile`. -/
theorem map_dropWhile_comm (f : Char → Char) (p : Char → Bool)
    (hf : ∀ c, p (f c) = p c) (l : List Char) :
    (l.dropWhile p).map f = (l.map f).dropWhile p := by
  induction l with
  | nil => rfl
  | cons c t ih =>
    simp only [List.map_cons, List.dropWhile_cons, hf]
    cases h : p c <;> simp [h, ih]

/-- A character map that preserves a predicate commutes with `filter`. -/
theorem map_filter_comm (f : Char → Char) (p : Char → Bool)
    (hf : ∀ c, p (f c) = p c) (l : List Char) :
    (l.filter p).map f = (l.map f).filter p := by
  induction l with
  | nil => rfl
  | cons c t ih => cases h : p c <;> simp [List.filter_cons, hf, h, ih]

/-- A whitespace-class-preserving map that fixes the space character
commutes with whitespace collapsing. -/
theorem map_collapseAux_comm (f : Char → Char) (hf : ∀ c, isWSChar (f c) = isWSChar c)
    (hsp : f ' ' = ' ') (l : List Char) : ∀ b : Bool,
    (collapseAux b l).map f = collapseAux b (l.map f) := by
  induction l with
  | nil => intro b; rfl
  | cons c t ih =>
    intro b
    simp only [collapseAux, List.map_cons, hf]
    cases h : isWSChar c
    · simp [h, ih]
    · cases b <;> simp [h, ih, hsp]

/-- Lowercasing commutes with `trim`. -/
theorem lowerL_trimL (l : List Char) : lowerL (trimL l) = trimL (lowerL l) := by
  simp only [lowerL, trimL, ltrimL, List.map_reverse,
    map_dropWhile_comm lowerChar isWSChar lowerChar_isWS]

/-- Lowercasing commutes with every stage of `cleanText`, so the lowercase
image of a cleaned string depends only on the lowercase image of the
trimmed input. -/
theorem lowerL_cleanText (s : String) :
    lowerL (cleanText s).data
      = trimL (stripLead (stripCtrl (collapseWS (lowerL (trimL s.data))))) := by
  have hctrl : ∀ c, (!isCtrlChar (lowerChar c)) = !isCtrlChar c := by
    intro c
    rw [lowerChar_isCtrl]
  show lowerL (trimL (stripLead (stripCtrl (collapseWS (trimL s.data)))))
      = trimL (stripLead (stripCtrl (collapseWS (lowerL (trimL s.data)))))
  rw [lowerL_trimL]
  simp only [stripLead, stripCtrl, collapseWS, lowerL]
  rw [map_dropWhile_comm lowerChar isLeadStrip lowerChar_isLead,
    map_filter_comm lowerChar (fun c => !isCtrlChar c) hctrl,
    map_collapseAux_comm lowerChar lowerChar_isWS rfl]

/-- `joinSpace` on a non-empty tail inserts one space. -/
theorem joinSpace_cons_of_ne (w : List Char) {ws : List (List Char)} (h : ws ≠ []) :
    joinSpace (w :: ws) = w ++ ' ' :: joinSpace ws := by
  cases ws with
  | nil => exact absurd rfl h
  | cons v vs => rfl

/-- Lowercasing commutes with `joinSpace`. -/
theorem lowerL_joinSpace (ws : List (List Char)) :
    lowerL (joinSpace ws) = joinSpace (ws.map lowerL) := by
  induction ws with
  | nil => rfl
  | cons w ws ih =>
    cases ws with
    | nil => rfl
    | cons v vs =>
      simp only [List.map_cons]
      rw [joinSpace_cons_of_ne w (List.cons_ne_nil v vs),
        joinSpace_cons_of_ne (lowerL w) (List.cons_ne_nil _ _)]
      have ih' := ih
      simp only [List.map_cons] at ih'
      simp only [lowerL, List.map_append, List.map_cons] at ih' ⊢
      rw [ih']
      rfl

/-- Lowercasing a title-cased word equals lowercasing the word. -/
theorem lowerL_capWord (w : List Char) : lowerL (capWord w) = lowerL w := by
  cases w with
  | nil => rfl
  | cons c t =>
    simp only [capWord, lowerL, List.map_cons, lowerChar_upperChar]

/-- The one-character splitter never returns an empty list of fields. -/
theorem splitCharAux_ne_nil (sep : Char) (cur : List Char) (l : List Char) :
    splitCharAux sep cur l ≠ [] := by
  induction l generalizing cur with
  | nil => simp [splitCharAux]
  | cons c t ih => by_cases h : c = sep <;> simp [splitCharAux, h, ih]

/-- Joining the fields of a space split restores the original list. -/
theorem joinSpace_splitCharAux (l : List Char) : ∀ cur : List Char,
    joinSpace (splitCharAux ' ' cur l) = cur ++ l := by
  induction l with
  | nil => intro cur; simp [splitCharAux, joinSpace]
  | cons c t ih =>
    intro cur
    by_cases h : c = ' '
    · subst h
      have hstep : splitCharAux ' ' cur (' ' :: t) = cur :: splitCharAux ' ' [] t := by
        simp [splitCharAux]
      rw [hstep, joinSpace_cons_of_ne cur (splitCharAux_ne_nil ' ' [] t), ih []]
      rfl
    · simp only [splitCharAux, if_neg h]
      rw [ih (cur ++ [c])]
      simp

/-- Joining the fields of a space split restores the original list. -/
theorem joinSpace_splitChar (l : List Char) : joinSpace (splitChar ' ' l) = l := by
  simpa using joinSpace_splitCharAux l []

/-- The lowercase image of `normalizeText` equals the lowercase image of
the lowercased cleaned text: the title-casing is erased by lowercasing and
the split/join on single spaces is the identity. -/
theorem lowerL_normalizeText (s : String) :
    lowerL (normalizeText s).data = lowerL (lowerL (cleanText s).data) := by
  show lowerL (joinSpace (List.map capWord (splitChar ' ' (lowerL (cleanText s).data))))
      = lowerL (lowerL (cleanText s).data)
  rw [lowerL_joinSpace, List.map_map,
    show lowerL ∘ capWord = lowerL from funext lowerL_capWord,
    ← lowerL_joinSpace, joinSpace_splitChar]

/-- The hash key splits into the three whitespace-stripped lowercased field
keys joined by the (whitespace-free) `|` separator. -/
theorem generateHash_eq (p : HempProduct) :
    generateHash p = ⟨removeWS (lowerL p.product_name.data) ++ '|' ::
        removeWS (lowerL p.plant_part.data) ++ '|' ::
          removeWS (lowerL p.industry.data)⟩ := by
  have hbar : lowerChar '|' = '|' := rfl
  have hws : (!isWSChar '|') = true := rfl
  simp only [generateHash, lowerL, removeWS, List.map_append, List.map_cons,
    List.filter_append, List.filter_cons, hbar, hws, if_true]

/-- C2 amended: the content hash (`generateHash` composed with
cleaning/normalization) is invariant under leading/trailing whitespace and
letter-case differences in name, plant part and industry, and depends on no
other fields; but a meaningful change to one of those fields need not
change the hash, because the key joins the fields with an unescaped `|`
and strips all whitespace (see the counterexample). -/
theorem C2_hash_amended :
    (∀ p q : HempProduct,
      jsToLower (jsTrim p.product_name) = jsToLower (jsTrim q.product_name) →
      jsToLower (jsTrim p.plant_part) = jsToLower (jsTrim q.plant_part) →
      jsToLower (jsTrim p.industry) = jsToLower (jsTrim q.industry) →
      generateHash (cleanProduct p) = generateHash (cleanProduct q))
    ∧ (∀ p q : HempProduct,
      p.product_name = q.product_name → p.plant_part = q.plant_part →
      p.industry = q.industry →
      generateHash (cleanProduct p) = generateHash (cleanProduct q)) := by
  constructor
  · intro p q h1 h2 h3
    have h1' : lowerL (trimL p.product_name.data) = lowerL (trimL q.product_name.data) :=
      congrArg String.data h1
    have h2' : lowerL (trimL p.plant_part.data) = lowerL (trimL q.plant_part.data) :=
      congrArg String.data h2
    have h3' : lowerL (trimL p.industry.data) = lowerL (trimL q.industry.data) :=
      congrArg String.data h3
    have en : removeWS (lowerL ((cleanProduct p).product_name).data)
        = removeWS (lowerL ((cleanProduct q).product_name).data) := by
      show removeWS (lowerL (cleanText p.product_name).data)
          = removeWS (lowerL (cleanText q.product_name).data)
      rw [lowerL_cleanText, lowerL_cleanText, h1']
    have ep : removeWS (lowerL ((cleanProduct p).plant_part).data)
        = removeWS (lowerL ((cleanProduct q).plant_part).data) := by
      show removeWS (lowerL (normalizeText p.plant_part).data)
          = removeWS (lowerL (normalizeText q.plant_part).data)
      rw [lowerL_normalizeText, lowerL_normalizeText, lowerL_cleanText,
        lowerL_cleanText, h2']
    have ei : removeWS (lowerL ((cleanProduct p).industry).data)
        = removeWS (lowerL ((cleanProduct q).industry).data) := by
      show removeWS (lowerL (normalizeText p.industry).data)
          = removeWS (lowerL (normalizeText q.industry).data)
      rw [lowerL_normalizeText, lowerL_normalizeText, lowerL_cleanText,
        lowerL_cleanText, h3']
    rw [generateHash_eq, generateHash_eq]
    exact congrArg String.mk (by rw [en, ep, ei])
  · intro p q h1 h2 h3
    simp only [generateHash, cleanProduct, h1, h2, h3]

/-- Witness for the amended C2 theorem: `pCase`/`qCase` differ only in edge
whitespace and case on the three hash fields (and arbitrarily elsewhere)
and hash equal; and a record differing from `pCase` only outside the three
fields also hashes equal. -/
theorem C2_hash_amended_witness :
    (jsToLower (jsTrim pCase.product_name) = jsToLower (jsTrim qCase.product_name)
     ∧ generateHash (cleanProduct pCase) = generateHash (cleanProduct qCase))
    ∧ generateHash (cleanProduct pCase)
        = generateHash (cleanProduct
            { pCase with description := "changed", source_url := "changed" }) := by
  constructor
  · exact ⟨by decide, C2_hash_amended.1 pCase qCase (by decide) (by decide) (by decide)⟩
  · exact C2_hash_amended.2 pCase _ rfl rfl rfl
